import Mathlib

/-!
Shallow embedding of the EDSAC-junior style simulator (`src/main.rs`):
a 16-bit word machine with a 5-bit opcode / 11-bit operand instruction
encoding, sign-magnitude integer arithmetic, an 11-entry opcode registry
and a fetch-execute loop.  Machine words are modelled as `Nat` values
below `2 ^ 16`; Rust panics (arithmetic overflow, unknown opcode,
out-of-bounds indexing, checked-shift overflow) are modelled as `Except`
errors.
-/

/-- Failure conditions of the simulator.  Each corresponds to a Rust
panic site: the overflow check in `ops::Add`, the fall-through in
`Instruction::get_type`, slice indexing out of bounds, and the
overflow-checked shift of a `u16` by an amount of 16 or more. -/
inductive SimError where
  | arithmeticOverflow
  | unknownOpcode
  | addressOutOfRange
  | shiftOverflow
deriving DecidableEq, Repr

deriving instance DecidableEq for Except

/-- `fn mask(bits: u32) -> u16 { (1 << bits) - 1 }` -/
def mask (bits : Nat) : Nat := (1 <<< bits) - 1

namespace Integer

/-- `Integer::new`: magnitude is `abs(value) & mask(15)`, bit 15 set iff
the value is negative. -/
def new (ii : Int) : Nat :=
  let abs_val := ii.natAbs &&& mask 15
  if 0 ≤ ii then abs_val else (1 <<< 15) ||| abs_val

/-- `Integer::is_positive`: sign bit (bit 15) clear. -/
def is_positive (w : Nat) : Bool := w &&& (1 <<< 15) == 0

/-- `Integer::abs`: the low 15 magnitude bits. -/
def abs (w : Nat) : Nat := w &&& mask 15

/-- `Integer::sign`: the isolated sign bit. -/
def sign (w : Nat) : Nat := w &&& (1 <<< 15)

/-- `Integer::less_than_zero`: sign bit set and magnitude nonzero. -/
def less_than_zero (w : Nat) : Bool := !(is_positive w) && (abs w != 0)

/-- The signed value a word denotes in sign-magnitude reading (this is
what the code's `Display` implementation prints). -/
def value (w : Nat) : Int := if is_positive w then (abs w : Int) else -(abs w : Int)

/-- `Integer::load`: read the word at `index`; Rust panics when the
index is out of bounds. -/
def load (index : Nat) (mem : List Nat) : Except SimError Nat :=
  match mem[index]? with
  | some w => .ok w
  | none => .error .addressOutOfRange

/-- `ops::Add for Integer`: same signs sum the magnitudes and fail on a
15-bit overflow; different signs subtract the smaller magnitude from the
larger, the sign following the larger-magnitude operand. -/
def add (a b : Nat) : Except SimError Nat :=
  if is_positive a == is_positive b then
    let result := abs a + abs b
    if result > mask 15 then .error .arithmeticOverflow
    else .ok (result ||| sign a)
  else
    let pos := if is_positive a then abs a else abs b
    let neg := if is_positive a then abs b else abs a
    if pos ≥ neg then .ok (pos - neg)
    else .ok ((neg - pos) ||| (1 <<< 15))

/-- `ops::Sub for Integer`: `a + Integer { w: b.w ^ (1 << 15) }`. -/
def sub (a b : Nat) : Except SimError Nat := add a (b ^^^ (1 <<< 15))

/-- `ops::BitOr for Integer`: full 16-bit or. -/
def bitor (a b : Nat) : Nat := a ||| b

/-- `ops::BitAnd for Integer`: full 16-bit and. -/
def bitand (a b : Nat) : Nat := a &&& b

/-- `ops::Shr<u16> for Integer`: `(self.abs() >> other) | self.sign()`.
A `u16` shift by 16 or more overflows Rust's checked shift and aborts. -/
def shr (a : Nat) (n : Nat) : Except SimError Nat :=
  if 16 ≤ n then .error .shiftOverflow
  else .ok ((abs a >>> n) ||| sign a)

/-- `ops::Shl<u16> for Integer`: `(self.abs() << other) | self.sign()`.
The shifted magnitude is truncated to the 16-bit word, so bit 14 of the
magnitude moves into bit 15.  A shift by 16 or more overflows Rust's
checked shift and aborts. -/
def shl (a : Nat) (n : Nat) : Except SimError Nat :=
  if 16 ≤ n then .error .shiftOverflow
  else .ok (((abs a <<< n) % 2 ^ 16) ||| sign a)

end Integer

namespace Instruction

/-- `Instruction::new`: `(op << 11) | (n & mask(11))`, truncated to the
16-bit word as in the Rust `u16` shift. -/
def new (op : Nat) (n : Nat) : Nat := ((op <<< 11) % 2 ^ 16) ||| (n &&& mask 11)

/-- `Instruction::n`: the low 11 operand bits. -/
def n (w : Nat) : Nat := w &&& mask 11

/-- `Instruction::op`: the high 5 opcode bits. -/
def op (w : Nat) : Nat := w >>> 11

/-- `Instruction::load`: fetch the word at `pc`; Rust panics when the
index is out of bounds. -/
def load (pc : Nat) (mem : List Nat) : Except SimError Nat :=
  match mem[pc]? with
  | some w => .ok w
  | none => .error .addressOutOfRange

end Instruction

/-- The eleven instruction types of the registry `INSTRUCTION_TYPES`. -/
inductive InstrType where
  | ADD | SUB | STORE | CLEAR | OR | AND | SHIFTR | SHIFTL | BGE | BLT | END
deriving DecidableEq, Repr

/-- The `opcode` field of each `InstrType` constant. -/
def InstrType.opcode : InstrType → Nat
  | .ADD => 0b00001
  | .SUB => 0b10000
  | .STORE => 0b00010
  | .CLEAR => 0b00011
  | .OR => 0b00000
  | .AND => 0b00100
  | .SHIFTR => 0b00101
  | .SHIFTL => 0b00110
  | .BGE => 0b00111
  | .BLT => 0b01000
  | .END => 0b01010

/-- `static INSTRUCTION_TYPES`, in source order. -/
def INSTRUCTION_TYPES : List InstrType :=
  [.ADD, .SUB, .STORE, .CLEAR, .OR, .AND, .SHIFTR, .SHIFTL, .BGE, .BLT, .END]

/-- `struct Regs { acc: Integer, pc: u16 }`. -/
structure Regs where
  acc : Nat
  pc : Nat
deriving DecidableEq, Repr

/-- `Regs::new`: accumulator `Integer::new(0)`, caller-supplied `pc`. -/
def Regs.new (pc : Nat) : Regs := ⟨Integer.new 0, pc⟩

/-- The `exec` function of each instruction type, exactly the eleven
closures of the Rust registry.  All but `STORE` leave memory unchanged. -/
def InstrType.exec : InstrType → Nat → Regs → List Nat → Except SimError (Regs × List Nat)
  | .ADD, n, old, mem => do
      let v ← Integer.load n mem
      let acc ← Integer.add old.acc v
      pure (⟨acc, old.pc + 1⟩, mem)
  | .SUB, n, old, mem => do
      let v ← Integer.load n mem
      let acc ← Integer.sub old.acc v
      pure (⟨acc, old.pc + 1⟩, mem)
  | .STORE, n, old, mem =>
      if n < mem.length then pure (⟨old.acc, old.pc + 1⟩, mem.set n old.acc)
      else .error .addressOutOfRange
  | .CLEAR, _, old, mem => pure (⟨Integer.new 0, old.pc + 1⟩, mem)
  | .OR, n, old, mem => do
      let v ← Integer.load n mem
      pure (⟨Integer.bitor old.acc v, old.pc + 1⟩, mem)
  | .AND, n, old, mem => do
      let v ← Integer.load n mem
      pure (⟨Integer.bitand old.acc v, old.pc + 1⟩, mem)
  | .SHIFTR, n, old, mem => do
      let acc ← Integer.shr old.acc n
      pure (⟨acc, old.pc + 1⟩, mem)
  | .SHIFTL, n, old, mem => do
      let acc ← Integer.shl old.acc n
      pure (⟨acc, old.pc + 1⟩, mem)
  | .BGE, n, old, mem =>
      pure (⟨old.acc, if !(Integer.less_than_zero old.acc) then n else old.pc + 1⟩, mem)
  | .BLT, n, old, mem =>
      pure (⟨old.acc, if Integer.less_than_zero old.acc then n else old.pc + 1⟩, mem)
  | .END, _, old, mem => pure (⟨old.acc, old.pc⟩, mem)

/-- `Instruction::get_type`: linear scan of the registry for the word's
opcode; an absent opcode is the `UnknownOpcode` panic. -/
def Instruction.get_type (w : Nat) : Except SimError InstrType :=
  match INSTRUCTION_TYPES.find? (fun tt => tt.opcode == Instruction.op w) with
  | some tt => .ok tt
  | none => .error .unknownOpcode

/-- `Instruction::exec`: resolve the type, then run its `exec` on the
operand field. -/
def Instruction.exec (w : Nat) (old : Regs) (mem : List Nat) :
    Except SimError (Regs × List Nat) := do
  let tt ← Instruction.get_type w
  tt.exec (Instruction.n w) old mem

/-- The do-while body of `run`: fetch at `pc`, execute, and stop after
executing an instruction whose opcode field equals `END.opcode`.  `fuel`
bounds the number of iterations; `none` means the bound was reached. -/
def runLoop : Nat → Regs → List Nat → Option (Except SimError (Regs × List Nat))
  | 0, _, _ => none
  | fuel + 1, regs, mem =>
      match Instruction.load regs.pc mem with
      | .error e => some (.error e)
      | .ok instr =>
        match Instruction.exec instr regs mem with
        | .error e => some (.error e)
        | .ok (regs2, mem2) =>
          if Instruction.op instr == InstrType.END.opcode then some (.ok (regs2, mem2))
          else runLoop fuel regs2 mem2

/-- `fn run(pc: u16, mem: &mut[u16]) -> Regs`, with an iteration bound. -/
def run (fuel : Nat) (pc : Nat) (mem : List Nat) :
    Option (Except SimError (Regs × List Nat)) :=
  runLoop fuel (Regs.new pc) mem

namespace Asm

/-- `fn add(n)` assembler helper of `main.rs`. -/
def add (n : Nat) : Nat := Instruction.new InstrType.ADD.opcode n

/-- `fn sub(n)` assembler helper of `main.rs`. -/
def sub (n : Nat) : Nat := Instruction.new InstrType.SUB.opcode n

/-- `fn store(n)` assembler helper of `main.rs`. -/
def store (n : Nat) : Nat := Instruction.new InstrType.STORE.opcode n

/-- `fn clear()` assembler helper of `main.rs`. -/
def clear : Nat := Instruction.new InstrType.CLEAR.opcode 0

/-- `fn end()` assembler helper of `main.rs`. -/
def end_ : Nat := Instruction.new InstrType.END.opcode 0

/-- `fn con(n)` assembler helper of `main.rs`. -/
def con (n : Int) : Nat := Integer.new n

end Asm

/-- The demonstration memory image built in `main`. -/
def demo_mem : List Nat :=
  [Asm.clear, Asm.add 5, Asm.add 6, Asm.store 5, Asm.end_, Asm.con 20, Asm.con (-30)]

/-! ### Bridge lemmas: the bitwise accessors in arithmetic form -/

namespace Integer

theorem mask_eq (bits : Nat) : mask bits = 2 ^ bits - 1 := by
  simp [mask, Nat.shiftLeft_eq]

theorem abs_eq_mod (w : Nat) : abs w = w % 2 ^ 15 := by
  rw [abs, mask_eq]
  exact Nat.and_pow_two_sub_one_eq_mod w 15

theorem sign_eq_ite (w : Nat) : sign w = if w.testBit 15 then 2 ^ 15 else 0 := by
  have h1 : sign w = w &&& 2 ^ 15 := by rw [sign, Nat.shiftLeft_eq]; norm_num
  rw [h1, Nat.and_two_pow]
  cases h : w.testBit 15 <;> simp [h]

theorem sign_eq_arith (w : Nat) : sign w = 2 ^ 15 * (w / 2 ^ 15 % 2) := by
  rw [sign_eq_ite, Nat.testBit_to_div_mod]
  rcases Nat.mod_two_eq_zero_or_one (w / 2 ^ 15) with h | h <;> rw [h] <;> norm_num

theorem sign_cases (w : Nat) : sign w = 0 ∨ sign w = 2 ^ 15 := by
  rw [sign_eq_arith]
  rcases Nat.mod_two_eq_zero_or_one (w / 2 ^ 15) with h | h <;> rw [h] <;> norm_num

theorem abs_lt (w : Nat) : abs w < 2 ^ 15 := by
  rw [abs_eq_mod]; exact Nat.mod_lt _ (by norm_num)

theorem sign_add_abs (w : Nat) (h : w < 2 ^ 16) : sign w + abs w = w := by
  rw [sign_eq_arith, abs_eq_mod]; omega

theorem is_positive_def_sign (w : Nat) : is_positive w = (sign w == 0) := rfl

theorem is_positive_eq (w : Nat) : is_positive w = decide (w / 2 ^ 15 % 2 = 0) := by
  rw [is_positive_def_sign, sign_eq_arith]
  rcases Nat.mod_two_eq_zero_or_one (w / 2 ^ 15) with h | h <;> rw [h] <;> decide

theorem is_positive_iff_sign (w : Nat) : is_positive w = true ↔ sign w = 0 := by
  rw [is_positive_def_sign]
  rcases sign_cases w with h | h <;> simp [h]

theorem is_positive_false_iff_sign (w : Nat) : is_positive w = false ↔ sign w = 2 ^ 15 := by
  rw [is_positive_def_sign]
  rcases sign_cases w with h | h <;> simp [h]

theorem or_sign_eq_add (m s : Nat) (hm : m < 2 ^ 15) (hs : s = 0 ∨ s = 2 ^ 15) :
    m ||| s = m + s := by
  rcases hs with h | h <;> subst h
  · simp
  · have h2 := Nat.mul_add_lt_is_or (i := 15) hm 1
    rw [Nat.mul_one] at h2
    rw [Nat.lor_comm, ← h2, Nat.add_comm]

theorem abs_compose (m s : Nat) (hm : m < 2 ^ 15) (hs : s = 0 ∨ s = 2 ^ 15) :
    abs (m + s) = m := by
  rw [abs_eq_mod]; rcases hs with h | h <;> subst h <;> omega

theorem sign_compose (m s : Nat) (hm : m < 2 ^ 15) (hs : s = 0 ∨ s = 2 ^ 15) :
    sign (m + s) = s := by
  rw [sign_eq_arith]; rcases hs with h | h <;> subst h <;> omega

theorem abs_xor_flip (b : Nat) : abs (b ^^^ 1 <<< 15) = abs b := by
  rw [abs, abs, Nat.and_xor_distrib_right]
  have h : 1 <<< 15 &&& mask 15 = 0 := by decide
  rw [h, Nat.xor_zero]

theorem sign_xor_flip (b : Nat) : sign (b ^^^ 1 <<< 15) = sign b ^^^ 2 ^ 15 := by
  rw [sign, sign, Nat.and_xor_distrib_right]
  have h : 1 <<< 15 &&& 1 <<< 15 = 2 ^ 15 := by decide
  rw [h]

theorem is_positive_xor_flip (b : Nat) : is_positive (b ^^^ 1 <<< 15) = !(is_positive b) := by
  rw [is_positive_def_sign, is_positive_def_sign, sign_xor_flip]
  rcases sign_cases b with h | h <;> rw [h] <;> decide

end Integer

/-! ### Characterizations of the arithmetic operations -/

namespace Integer

theorem add_same (a b : Nat) (h : is_positive a = is_positive b) :
    add a b = if abs a + abs b ≤ 32767 then .ok (abs a + abs b + sign a)
              else .error .arithmeticOverflow := by
  simp only [add, h, beq_self_eq_true, if_true, mask_eq]
  by_cases hle : abs a + abs b ≤ 32767
  · rw [if_neg (by omega), if_pos hle]
    rw [or_sign_eq_add _ _ (by omega) (sign_cases a)]
  · rw [if_pos (by omega), if_neg hle]

theorem add_diff (a b : Nat) (ha : is_positive a = true) (hb : is_positive b = false) :
    add a b = if abs b ≤ abs a then .ok (abs a - abs b)
              else .ok ((abs b - abs a) + 2 ^ 15) := by
  simp [add, ha, hb]
  by_cases hc : abs b ≤ abs a
  · rw [if_pos hc, if_pos hc]
  · rw [if_neg hc, if_neg hc]
    congr 1
    rw [(by norm_num : (32768:Nat) = 2 ^ 15)]
    exact or_sign_eq_add _ _ (by have := abs_lt b; omega) (Or.inr rfl)

theorem add_diff2 (a b : Nat) (ha : is_positive a = false) (hb : is_positive b = true) :
    add a b = if abs a ≤ abs b then .ok (abs b - abs a)
              else .ok ((abs a - abs b) + 2 ^ 15) := by
  simp [add, ha, hb]
  by_cases hc : abs a ≤ abs b
  · rw [if_pos hc, if_pos hc]
  · rw [if_neg hc, if_neg hc]
    congr 1
    rw [(by norm_num : (32768:Nat) = 2 ^ 15)]
    exact or_sign_eq_add _ _ (by have := abs_lt a; omega) (Or.inr rfl)

theorem less_than_zero_eq (w : Nat) : less_than_zero w = decide (value w < 0) := by
  unfold less_than_zero value
  cases h : is_positive w
  · simp only [h, Bool.not_false, Bool.true_and, Bool.false_eq_true, if_false]
    rcases Nat.eq_zero_or_pos (abs w) with h0 | h0
    · simp [h0]
    · have h1 : (abs w != 0) = true := by simp; omega
      have h2 : (-(abs w : Int) < 0) := by omega
      simp [h1, h2]
  · simp [h]

theorem shr_ok (a n : Nat) (hn : n < 16) :
    shr a n = .ok ((abs a >>> n) + sign a) := by
  rw [shr, if_neg (by omega)]
  rw [or_sign_eq_add _ _ ?_ (sign_cases a)]
  rw [Nat.shiftRight_eq_div_pow]
  have := abs_lt a
  exact lt_of_le_of_lt (Nat.div_le_self _ _) this

theorem shl_ok (a n : Nat) (hn : n < 16) :
    shl a n = .ok (((abs a <<< n) % 2 ^ 16) ||| sign a) := by
  rw [shl, if_neg (by omega)]

theorem sign_or (x y : Nat) : sign (x ||| y) = sign x ||| sign y := by
  rw [sign, sign, sign, Nat.and_distrib_right]

theorem abs_or (x y : Nat) : abs (x ||| y) = abs x ||| abs y := by
  rw [abs, abs, abs, Nat.and_distrib_right]

theorem sign_sign (x : Nat) : sign (sign x) = sign x := by
  rcases sign_cases x with h | h <;> rw [h] <;> decide

theorem abs_sign (x : Nat) : abs (sign x) = 0 := by
  rcases sign_cases x with h | h <;> rw [h] <;> decide

end Integer

namespace Integer

theorem abs_small (x : Nat) (h : x < 2 ^ 15) : abs x = x := by
  rw [abs_eq_mod]; omega

theorem sign_small (x : Nat) (h : x < 2 ^ 15) : sign x = 0 := by
  rw [sign_eq_arith]; omega

theorem is_positive_small (x : Nat) (h : x < 2 ^ 15) : is_positive x = true := by
  rw [is_positive_eq]; simp; omega

/-- Any successful addition result is a 16-bit word, and two sign-bit-clear
operands give a sign-bit-clear result. -/
theorem add_ok_inv (a b w : Nat) (h : add a b = .ok w) :
    w < 2 ^ 16 ∧
    (is_positive a = true → is_positive b = true → is_positive w = true) := by
  cases hA : is_positive a <;> cases hB : is_positive b
  · rw [add_same a b (by rw [hA, hB])] at h
    by_cases hle : abs a + abs b ≤ 32767
    · rw [if_pos hle] at h
      simp only [Except.ok.injEq] at h
      subst h
      rcases sign_cases a with hs | hs <;>
        exact ⟨by omega, fun hh => nomatch hh⟩
    · rw [if_neg hle] at h; cases h
  · rw [add_diff2 a b hA hB] at h
    by_cases hc : abs a ≤ abs b
    · rw [if_pos hc] at h
      simp only [Except.ok.injEq] at h
      subst h
      have := abs_lt b
      exact ⟨by omega, fun hh => nomatch hh⟩
    · rw [if_neg hc] at h
      simp only [Except.ok.injEq] at h
      subst h
      have := abs_lt a
      exact ⟨by omega, fun hh => nomatch hh⟩
  · rw [add_diff a b hA hB] at h
    by_cases hc : abs b ≤ abs a
    · rw [if_pos hc] at h
      simp only [Except.ok.injEq] at h
      subst h
      have := abs_lt a
      exact ⟨by omega, fun _ hh => nomatch hh⟩
    · rw [if_neg hc] at h
      simp only [Except.ok.injEq] at h
      subst h
      have := abs_lt b
      exact ⟨by omega, fun _ hh => nomatch hh⟩
  · rw [add_same a b (by rw [hA, hB])] at h
    by_cases hle : abs a + abs b ≤ 32767
    · rw [if_pos hle] at h
      simp only [Except.ok.injEq] at h
      subst h
      have hs := (is_positive_iff_sign a).mp hA
      refine ⟨by omega, fun _ _ => ?_⟩
      rw [hs, Nat.add_zero]
      exact is_positive_small _ (by omega)
    · rw [if_neg hle] at h; cases h

/-- The sign bit of any successful addition result is fixed by the
operands' sign bits and magnitude order alone: the common sign when the
signs agree, the larger-magnitude operand's sign when they differ, and
zero on a magnitude tie. -/
theorem add_ok_sign (a b w : Nat) (h : add a b = .ok w) :
    w < 2 ^ 16 ∧
    (is_positive a = is_positive b → sign w = sign a) ∧
    (is_positive a ≠ is_positive b →
      (abs b < abs a → sign w = sign a) ∧
      (abs a < abs b → sign w = sign b) ∧
      (abs a = abs b → sign w = 0)) := by
  cases hA : is_positive a <;> cases hB : is_positive b
  · rw [add_same a b (by rw [hA, hB])] at h
    by_cases hle : abs a + abs b ≤ 32767
    · rw [if_pos hle] at h
      simp only [Except.ok.injEq] at h
      subst h
      have hs := sign_compose (abs a + abs b) (sign a) (by omega) (sign_cases a)
      refine ⟨?_, fun _ => hs, fun hne => absurd rfl hne⟩
      rcases sign_cases a with h0 | h0 <;> omega
    · rw [if_neg hle] at h; cases h
  · rw [add_diff2 a b hA hB] at h
    by_cases hc : abs a ≤ abs b
    · rw [if_pos hc] at h
      simp only [Except.ok.injEq] at h
      subst h
      have hblt := abs_lt b
      have hsw : sign (abs b - abs a) = 0 := sign_small _ (by omega)
      refine ⟨by omega, fun heq => absurd heq (by decide), fun _ => ⟨fun hlt => ?_, fun _ => ?_, fun _ => hsw⟩⟩
      · exfalso; omega
      · rw [hsw]; exact ((is_positive_iff_sign b).mp hB).symm
    · rw [if_neg hc] at h
      simp only [Except.ok.injEq] at h
      subst h
      have halt := abs_lt a
      have hsw : sign (abs a - abs b + 2 ^ 15) = 2 ^ 15 :=
        sign_compose _ _ (by omega) (Or.inr rfl)
      refine ⟨by omega, fun heq => absurd heq (by decide), fun _ => ⟨fun _ => ?_, fun hlt => ?_, fun heq2 => ?_⟩⟩
      · rw [hsw]; exact ((is_positive_false_iff_sign a).mp hA).symm
      · exfalso; omega
      · exfalso; omega
  · rw [add_diff a b hA hB] at h
    by_cases hc : abs b ≤ abs a
    · rw [if_pos hc] at h
      simp only [Except.ok.injEq] at h
      subst h
      have halt := abs_lt a
      have hsw : sign (abs a - abs b) = 0 := sign_small _ (by omega)
      refine ⟨by omega, fun heq => absurd heq (by decide), fun _ => ⟨fun _ => ?_, fun hlt => ?_, fun _ => hsw⟩⟩
      · rw [hsw]; exact ((is_positive_iff_sign a).mp hA).symm
      · exfalso; omega
    · rw [if_neg hc] at h
      simp only [Except.ok.injEq] at h
      subst h
      have hblt := abs_lt b
      have hsw : sign (abs b - abs a + 2 ^ 15) = 2 ^ 15 :=
        sign_compose _ _ (by omega) (Or.inr rfl)
      refine ⟨by omega, fun heq => absurd heq (by decide), fun _ => ⟨fun hlt => ?_, fun _ => ?_, fun heq2 => ?_⟩⟩
      · exfalso; omega
      · rw [hsw]; exact ((is_positive_false_iff_sign b).mp hB).symm
      · exfalso; omega
  · rw [add_same a b (by rw [hA, hB])] at h
    by_cases hle : abs a + abs b ≤ 32767
    · rw [if_pos hle] at h
      simp only [Except.ok.injEq] at h
      subst h
      have hs := sign_compose (abs a + abs b) (sign a) (by omega) (sign_cases a)
      refine ⟨?_, fun _ => hs, fun hne => absurd rfl hne⟩
      rcases sign_cases a with h0 | h0 <;> omega
    · rw [if_neg hle] at h; cases h

end Integer

/-- Inversion for a successful `Except` bind. -/
theorem except_bind_ok {α β : Type} {x : Except SimError α} {f : α → Except SimError β} {b : β}
    (h : x >>= f = .ok b) : ∃ a, x = .ok a ∧ f a = .ok b := by
  cases x with
  | error e => simp [Bind.bind, Except.bind] at h
  | ok a => exact ⟨a, rfl, by simpa [Bind.bind, Except.bind] using h⟩

/-- Every opcode other than STORE leaves the memory untouched when it
succeeds. -/
theorem exec_mem_frame (tt : InstrType) (n : Nat) (old : Regs) (mem : List Nat)
    (h : tt ≠ .STORE) :
    ∀ regs2 mem2, tt.exec n old mem = .ok (regs2, mem2) → mem2 = mem := by
  intro regs2 mem2 hres
  cases tt with
  | STORE => exact absurd rfl h
  | ADD =>
    obtain ⟨v, h1, h2⟩ := except_bind_ok hres
    obtain ⟨acc, h3, h4⟩ := except_bind_ok h2
    simp [Pure.pure, Except.pure] at h4
    exact h4.2.symm
  | SUB =>
    obtain ⟨v, h1, h2⟩ := except_bind_ok hres
    obtain ⟨acc, h3, h4⟩ := except_bind_ok h2
    simp [Pure.pure, Except.pure] at h4
    exact h4.2.symm
  | SHIFTR =>
    obtain ⟨acc, h3, h4⟩ := except_bind_ok hres
    simp [Pure.pure, Except.pure] at h4
    exact h4.2.symm
  | SHIFTL =>
    obtain ⟨acc, h3, h4⟩ := except_bind_ok hres
    simp [Pure.pure, Except.pure] at h4
    exact h4.2.symm
  | OR =>
    obtain ⟨v, h1, h2⟩ := except_bind_ok hres
    simp [Pure.pure, Except.pure] at h2
    exact h2.2.symm
  | AND =>
    obtain ⟨v, h1, h2⟩ := except_bind_ok hres
    simp [Pure.pure, Except.pure] at h2
    exact h2.2.symm
  | CLEAR =>
    simp [InstrType.exec, Pure.pure, Except.pure] at hres
    exact hres.2.symm
  | BGE =>
    simp [InstrType.exec, Pure.pure, Except.pure] at hres
    exact hres.2.symm
  | BLT =>
    simp [InstrType.exec, Pure.pure, Except.pure] at hres
    exact hres.2.symm
  | END =>
    simp [InstrType.exec, Pure.pure, Except.pure] at hres
    exact hres.2.symm

/-! ### Claims -/

/-- C1: for every pair of sign-magnitude Integers `a` and `b`: with equal
sign bits and magnitude sum at most 32767, addition succeeds with the
common sign and the summed magnitude, matching native signed addition;
with equal sign bits and a larger magnitude sum it fails with
`ArithmeticOverflow`; with different sign bits the result magnitude is
the larger magnitude minus the smaller, the result sign follows the
larger-magnitude operand, and equal magnitudes give the non-negative
zero word. -/
theorem C1_add_semantics (a b : Nat) (ha : a < 2 ^ 16) (hb : b < 2 ^ 16) :
    (Integer.is_positive a = Integer.is_positive b →
      (Integer.abs a + Integer.abs b ≤ 32767 →
        ∃ w, Integer.add a b = .ok w ∧
          Integer.abs w = Integer.abs a + Integer.abs b ∧
          Integer.sign w = Integer.sign a ∧
          Integer.value w = Integer.value a + Integer.value b) ∧
      (32767 < Integer.abs a + Integer.abs b →
        Integer.add a b = .error .arithmeticOverflow)) ∧
    (Integer.is_positive a ≠ Integer.is_positive b →
      ∃ w, Integer.add a b = .ok w ∧
        Integer.abs w =
          max (Integer.abs a) (Integer.abs b) - min (Integer.abs a) (Integer.abs b) ∧
        (Integer.abs b < Integer.abs a → Integer.sign w = Integer.sign a) ∧
        (Integer.abs a < Integer.abs b → Integer.sign w = Integer.sign b) ∧
        (Integer.abs a = Integer.abs b → w = 0)) := by
  constructor
  · intro hsame
    constructor
    · intro hle
      refine ⟨Integer.abs a + Integer.abs b + Integer.sign a,
        by rw [Integer.add_same a b hsame, if_pos hle],
        Integer.abs_compose _ _ (by omega) (Integer.sign_cases a),
        Integer.sign_compose _ _ (by omega) (Integer.sign_cases a), ?_⟩
      have habs := Integer.abs_compose (Integer.abs a + Integer.abs b) (Integer.sign a)
        (by omega) (Integer.sign_cases a)
      have hsgn := Integer.sign_compose (Integer.abs a + Integer.abs b) (Integer.sign a)
        (by omega) (Integer.sign_cases a)
      have hpos : Integer.is_positive (Integer.abs a + Integer.abs b + Integer.sign a) =
          Integer.is_positive a := by
        rw [Integer.is_positive_def_sign, Integer.is_positive_def_sign, hsgn]
      unfold Integer.value
      rw [hpos, habs]
      cases h : Integer.is_positive a <;> rw [h] at hsame <;>
        simp [h, ← hsame] <;> push_cast <;> ring
    · intro hgt
      rw [Integer.add_same a b hsame, if_neg (by omega)]
  · intro hdiff
    cases hA : Integer.is_positive a <;> cases hB : Integer.is_positive b
    · rw [hA, hB] at hdiff; exact absurd rfl hdiff
    · rw [Integer.add_diff2 a b hA hB]
      by_cases hc : Integer.abs a ≤ Integer.abs b
      · refine ⟨Integer.abs b - Integer.abs a, by rw [if_pos hc], ?_, ?_, ?_, ?_⟩
        · rw [Integer.abs_small _ (by have := Integer.abs_lt b; omega)]; omega
        · intro hlt; exfalso; omega
        · intro hlt
          rw [Integer.sign_small _ (by have := Integer.abs_lt b; omega)]
          exact ((Integer.is_positive_iff_sign b).mp hB).symm
        · intro heq; omega
      · refine ⟨Integer.abs a - Integer.abs b + 2 ^ 15, by rw [if_neg hc], ?_, ?_, ?_, ?_⟩
        · rw [Integer.abs_compose _ _ (by have := Integer.abs_lt a; omega) (Or.inr rfl)]
          omega
        · intro hlt
          rw [Integer.sign_compose _ _ (by have := Integer.abs_lt a; omega) (Or.inr rfl)]
          exact ((Integer.is_positive_false_iff_sign a).mp hA).symm
        · intro hlt; exfalso; omega
        · intro heq; exfalso; omega
    · rw [Integer.add_diff a b hA hB]
      by_cases hc : Integer.abs b ≤ Integer.abs a
      · refine ⟨Integer.abs a - Integer.abs b, by rw [if_pos hc], ?_, ?_, ?_, ?_⟩
        · rw [Integer.abs_small _ (by have := Integer.abs_lt a; omega)]; omega
        · intro hlt
          rw [Integer.sign_small _ (by have := Integer.abs_lt a; omega)]
          exact ((Integer.is_positive_iff_sign a).mp hA).symm
        · intro hlt; exfalso; omega
        · intro heq; omega
      · refine ⟨Integer.abs b - Integer.abs a + 2 ^ 15, by rw [if_neg hc], ?_, ?_, ?_, ?_⟩
        · rw [Integer.abs_compose _ _ (by have := Integer.abs_lt b; omega) (Or.inr rfl)]
          omega
        · intro hlt; exfalso; omega
        · intro hlt
          rw [Integer.sign_compose _ _ (by have := Integer.abs_lt b; omega) (Or.inr rfl)]
          exact ((Integer.is_positive_false_iff_sign b).mp hB).symm
        · intro heq; exfalso; omega
    · rw [hA, hB] at hdiff; exact absurd rfl hdiff

/-- C1 witness: `5 + 7` instantiates the same-sign success branch. -/
theorem C1_witness :
    ((5:Nat) < 2 ^ 16 ∧ (7:Nat) < 2 ^ 16) ∧
    Integer.is_positive 5 = Integer.is_positive 7 ∧
    Integer.abs 5 + Integer.abs 7 ≤ 32767 ∧
    (∃ w, Integer.add 5 7 = .ok w ∧ Integer.abs w = Integer.abs 5 + Integer.abs 7 ∧
      Integer.sign w = Integer.sign 5 ∧
      Integer.value w = Integer.value 5 + Integer.value 7) := by
  refine ⟨⟨by decide, by decide⟩, by decide, by decide, ?_⟩
  exact ((C1_add_semantics 5 7 (by decide) (by decide)).1 (by decide)).1 (by decide)

/-- C2 counterexample: shifting the positive word `0x4000` (magnitude
16384, sign bit clear) left by one succeeds and yields `0x8000`, a word
whose sign bit is set and whose magnitude is zero: the magnitude bit 14
silently overwrote the sign bit 15. -/
theorem C2_counterexample_shl :
    Integer.is_positive 16384 = true ∧ Integer.abs 16384 = 16384 ∧
    Integer.shl 16384 1 = .ok 32768 ∧ Integer.is_positive 32768 = false ∧
    Integer.abs 32768 = 0 := by decide

/-- C2 amended: addition, subtraction and shift-right either fail or
return a 16-bit word whose bit 15 carries only the sign, fixed by the
operands' sign bits and magnitude order alone: addition yields the
common sign when the operand signs agree, the larger-magnitude
operand's sign when they differ and a clear bit 15 on a magnitude tie;
subtraction behaves the same with the subtrahend's sign bit flipped;
shift-right preserves the sign bit exactly.  Shift-left violates the
invariant: a magnitude bit shifted into position 15 sets the sign bit
of a positive operand. -/
theorem C2_amended_sign_discipline (a b n : Nat) (ha : a < 2 ^ 16) (hb : b < 2 ^ 16) (hn : n < 16) :
    (∀ w, Integer.add a b = .ok w → w < 2 ^ 16 ∧
      (Integer.is_positive a = Integer.is_positive b →
        Integer.sign w = Integer.sign a) ∧
      (Integer.is_positive a ≠ Integer.is_positive b →
        (Integer.abs b < Integer.abs a → Integer.sign w = Integer.sign a) ∧
        (Integer.abs a < Integer.abs b → Integer.sign w = Integer.sign b) ∧
        (Integer.abs a = Integer.abs b → Integer.sign w = 0))) ∧
    (∀ w, Integer.sub a b = .ok w → w < 2 ^ 16 ∧
      (Integer.is_positive a ≠ Integer.is_positive b →
        Integer.sign w = Integer.sign a) ∧
      (Integer.is_positive a = Integer.is_positive b →
        (Integer.abs b < Integer.abs a → Integer.sign w = Integer.sign a) ∧
        (Integer.abs a < Integer.abs b → Integer.sign w = Integer.sign b ^^^ 2 ^ 15) ∧
        (Integer.abs a = Integer.abs b → Integer.sign w = 0))) ∧
    (∀ w, Integer.shr a n = .ok w → w < 2 ^ 16 ∧ Integer.sign w = Integer.sign a) ∧
    (∃ a0 w, Integer.is_positive a0 = true ∧ Integer.shl a0 1 = .ok w ∧
      Integer.is_positive w = false) := by
  refine ⟨fun w h => Integer.add_ok_sign a b w h, ?_, ?_,
    ⟨16384, 32768, by decide, by decide, by decide⟩⟩
  · intro w h
    rw [Integer.sub] at h
    have hinv := Integer.add_ok_sign a (b ^^^ 1 <<< 15) w h
    have hflip_pos := Integer.is_positive_xor_flip b
    have hflip_abs := Integer.abs_xor_flip b
    have hflip_sign := Integer.sign_xor_flip b
    refine ⟨hinv.1, ?_, ?_⟩
    · intro hne
      apply hinv.2.1
      rw [hflip_pos]
      cases hA : Integer.is_positive a <;> cases hB : Integer.is_positive b
      · rw [hA, hB] at hne; exact absurd rfl hne
      · rfl
      · rfl
      · rw [hA, hB] at hne; exact absurd rfl hne
    · intro heq
      have hne2 : Integer.is_positive a ≠ Integer.is_positive (b ^^^ 1 <<< 15) := by
        rw [hflip_pos, heq]
        cases hB : Integer.is_positive b <;> simp
      have h3 := hinv.2.2 hne2
      rw [hflip_abs] at h3
      exact ⟨h3.1, fun hlt => (h3.2.1 hlt).trans hflip_sign, h3.2.2⟩
  · intro w h
    rw [Integer.shr_ok a n hn] at h
    simp only [Except.ok.injEq] at h
    subst h
    have h1 := Integer.abs_lt a
    have h2 : Integer.abs a >>> n < 2 ^ 15 := by
      rw [Nat.shiftRight_eq_div_pow]
      exact lt_of_le_of_lt (Nat.div_le_self _ _) h1
    constructor
    · rcases Integer.sign_cases a with hs | hs <;> omega
    · exact Integer.sign_compose _ _ h2 (Integer.sign_cases a)

/-- C2 witness: shifting `5` right by one keeps bit 15 clear. -/
theorem C2_witness :
    ((5:Nat) < 2 ^ 16 ∧ (3:Nat) < 2 ^ 16 ∧ (1:Nat) < 16) ∧
    Integer.shr 5 1 = .ok 2 ∧ ((2:Nat) < 2 ^ 16 ∧ Integer.sign 2 = Integer.sign 5) := by
  refine ⟨⟨by decide, by decide, by decide⟩, by decide, ?_⟩
  exact (C2_amended_sign_discipline 5 3 1 (by decide) (by decide) (by decide)).2.2.1 2 (by decide)

/-- C3 counterexample: shifting `0x2000` (positive, magnitude 8192) left
by two succeeds with result `0x8000`: the original sign bit 0 is not
reapplied unchanged, the shifted magnitude sets bit 15 instead. -/
theorem C3_counterexample_shl_sign :
    Integer.sign 8192 = 0 ∧ Integer.shl 8192 2 = .ok 32768 ∧
    Integer.sign 32768 = 2 ^ 15 ∧ Integer.abs 32768 = 0 := by decide

/-- C3 amended: for shift amounts below 16, shift-right shifts only the
15-bit magnitude and reapplies the original sign bit (with zero
magnitude at 15), while shift-left truncates the shifted magnitude to
the 16-bit word and ORs in the sign, so the result sign bit is the OR of
the original sign and the shifted magnitude bit 15 (the original sign is
preserved only when the shifted magnitude still fits in 15 bits); shift
amounts of 16 up to the 11-bit operand maximum do not produce an
all-zero magnitude but fail, because the Rust `u16` shift by 16 or more
overflows. -/
theorem C3_amended_shifts (a n : Nat) (ha : a < 2 ^ 16) (hn : n < 2048) :
    (n < 16 →
      (∃ w, Integer.shr a n = .ok w ∧
        Integer.abs w = Integer.abs a >>> n ∧ Integer.sign w = Integer.sign a) ∧
      (15 ≤ n → ∃ w, Integer.shr a n = .ok w ∧ Integer.abs w = 0 ∧
        Integer.sign w = Integer.sign a) ∧
      (∃ w, Integer.shl a n = .ok w ∧
        Integer.abs w = (Integer.abs a <<< n) % 2 ^ 16 % 2 ^ 15 ∧
        Integer.sign w = Integer.sign a ||| Integer.sign ((Integer.abs a <<< n) % 2 ^ 16) ∧
        (Integer.abs a <<< n < 2 ^ 15 → Integer.sign w = Integer.sign a))) ∧
    (16 ≤ n → Integer.shr a n = .error .shiftOverflow ∧
      Integer.shl a n = .error .shiftOverflow) := by
  constructor
  · intro hlt
    have h1 := Integer.abs_lt a
    have h2 : Integer.abs a >>> n < 2 ^ 15 := by
      rw [Nat.shiftRight_eq_div_pow]
      exact lt_of_le_of_lt (Nat.div_le_self _ _) h1
    refine ⟨⟨Integer.abs a >>> n + Integer.sign a, Integer.shr_ok a n hlt,
        Integer.abs_compose _ _ h2 (Integer.sign_cases a),
        Integer.sign_compose _ _ h2 (Integer.sign_cases a)⟩, ?_, ?_⟩
    · intro h15
      refine ⟨Integer.abs a >>> n + Integer.sign a, Integer.shr_ok a n hlt, ?_,
        Integer.sign_compose _ _ h2 (Integer.sign_cases a)⟩
      have h0 : Integer.abs a >>> n = 0 := by
        rw [Nat.shiftRight_eq_div_pow]
        have : 2 ^ 15 ≤ 2 ^ n := Nat.pow_le_pow_right (by norm_num) h15
        exact Nat.div_eq_of_lt (by omega)
      rw [h0]
      exact Integer.abs_compose 0 _ (by norm_num) (Integer.sign_cases a)
    · refine ⟨(Integer.abs a <<< n) % 2 ^ 16 ||| Integer.sign a,
        Integer.shl_ok a n hlt, ?_, ?_, ?_⟩
      · rw [Integer.abs_or, Integer.abs_sign, Nat.or_zero, Integer.abs_eq_mod]
      · rw [Integer.sign_or, Integer.sign_sign, Nat.lor_comm]
      · intro hsmall
        rw [Integer.sign_or, Integer.sign_sign]
        have hy : (Integer.abs a <<< n) % 2 ^ 16 = Integer.abs a <<< n :=
          Nat.mod_eq_of_lt (by omega)
        rw [hy, Integer.sign_small _ hsmall, Nat.zero_or]
  · intro h16
    rw [Integer.shr, if_pos h16, Integer.shl, if_pos h16]
    exact ⟨rfl, rfl⟩

/-- C3 witness: shifting `5` right by one shifts the magnitude and keeps
the sign. -/
theorem C3_witness :
    ((5:Nat) < 2 ^ 16 ∧ (1:Nat) < 2048) ∧
    (∃ w, Integer.shr 5 1 = .ok w ∧ Integer.abs w = Integer.abs 5 >>> 1 ∧
      Integer.sign w = Integer.sign 5) := by
  refine ⟨⟨by decide, by decide⟩, ?_⟩
  exact ((C3_amended_shifts 5 1 (by decide) (by decide)).1 (by decide)).1

/-- C4: BGE branches to the operand exactly when the accumulator is at
least zero (any signed zero, even with the sign bit set, counts), and
otherwise advances the pc by one; BLT branches exactly when the
accumulator is negative with nonzero magnitude; neither alters the
accumulator or the memory. -/
theorem C4_branch_semantics (acc pc n : Nat) (mem : List Nat) :
    InstrType.BGE.exec n ⟨acc, pc⟩ mem =
      .ok (⟨acc, if 0 ≤ Integer.value acc then n else pc + 1⟩, mem) ∧
    InstrType.BLT.exec n ⟨acc, pc⟩ mem =
      .ok (⟨acc, if Integer.value acc < 0 then n else pc + 1⟩, mem) ∧
    (Integer.value acc < 0 ↔
      Integer.is_positive acc = false ∧ Integer.abs acc ≠ 0) ∧
    (Integer.abs acc = 0 → 0 ≤ Integer.value acc) := by
  have hval : Integer.value acc < 0 ↔
      Integer.is_positive acc = false ∧ Integer.abs acc ≠ 0 := by
    have hlz := Integer.less_than_zero_eq acc
    unfold Integer.less_than_zero at hlz
    constructor
    · intro hv
      have hd : (!Integer.is_positive acc && (Integer.abs acc != 0)) = true := by
        rw [hlz]; simpa using hv
      simp at hd
      exact ⟨hd.1, hd.2⟩
    · intro ⟨h1, h2⟩
      have hd : (!Integer.is_positive acc && (Integer.abs acc != 0)) = true := by
        simp [h1, h2]
      rw [hlz] at hd
      simpa using hd
  refine ⟨?_, ?_, hval, ?_⟩
  · by_cases hv : Integer.value acc < 0
    · simp [InstrType.exec, Integer.less_than_zero_eq, hv, not_le.mpr hv,
        Pure.pure, Except.pure]
    · simp [InstrType.exec, Integer.less_than_zero_eq, hv, not_lt.mp hv,
        Pure.pure, Except.pure]
  · by_cases hv : Integer.value acc < 0
    · simp [InstrType.exec, Integer.less_than_zero_eq, hv, Pure.pure, Except.pure]
    · simp [InstrType.exec, Integer.less_than_zero_eq, hv, Pure.pure, Except.pure]
  · intro h0
    unfold Integer.value
    cases h : Integer.is_positive acc <;> simp [h, h0]

/-- C4 witness: BGE on the negative-zero accumulator `0x8000` takes the
branch. -/
theorem C4_witness :
    InstrType.BGE.exec 9 ⟨32768, 3⟩ ([] : List Nat) = .ok (⟨32768, 9⟩, []) := by
  have h := (C4_branch_semantics 32768 3 9 ([] : List Nat)).1
  rw [if_pos (by decide)] at h
  exact h

/-- C5: STORE writes the accumulator's raw word to the addressed cell,
leaves every other cell and the accumulator unchanged and advances the
pc by one; every one of the other ten opcodes leaves the whole memory
unchanged whenever it succeeds. -/
theorem C5_store_frame (acc pc n : Nat) (mem : List Nat) (hn : n < mem.length) :
    InstrType.STORE.exec n ⟨acc, pc⟩ mem = .ok (⟨acc, pc + 1⟩, mem.set n acc) ∧
    (mem.set n acc)[n]? = some acc ∧
    (∀ i, i ≠ n → (mem.set n acc)[i]? = mem[i]?) ∧
    (∀ tt : InstrType, tt ≠ .STORE → ∀ regs2 mem2,
      tt.exec n ⟨acc, pc⟩ mem = .ok (regs2, mem2) → mem2 = mem) := by
  refine ⟨?_, ?_, ?_, ?_⟩
  · simp [InstrType.exec, hn, Pure.pure, Except.pure]
  · exact List.getElem?_set_self hn
  · intro i hi
    exact List.getElem?_set_ne (Ne.symm hi)
  · intro tt htt regs2 mem2 h
    exact exec_mem_frame tt n ⟨acc, pc⟩ mem htt regs2 mem2 h

/-- C5 witness: storing accumulator `7` at cell 0 of `[3, 9]`. -/
theorem C5_witness :
    (0 < ([3, 9] : List Nat).length) ∧
    (InstrType.STORE.exec 0 ⟨7, 0⟩ [3, 9] = .ok (⟨7, 1⟩, ([3, 9] : List Nat).set 0 7) ∧
     (([3, 9] : List Nat).set 0 7)[0]? = some 7 ∧
     (∀ i, i ≠ 0 → (([3, 9] : List Nat).set 0 7)[i]? = ([3, 9] : List Nat)[i]?) ∧
     (∀ tt : InstrType, tt ≠ .STORE → ∀ regs2 mem2,
       tt.exec 0 ⟨7, 0⟩ [3, 9] = .ok (regs2, mem2) → mem2 = [3, 9])) :=
  ⟨by decide, C5_store_frame 7 0 0 [3, 9] (by decide)⟩

/-- C6: for opcodes below 32 and operands below 2048, decoding the
encoded word recovers both fields. -/
theorem C6_encode_decode (op n : Nat) (hop : op < 32) (hn : n < 2048) :
    Instruction.op (Instruction.new op n) = op ∧ Instruction.n (Instruction.new op n) = n := by
  have hmask : n &&& mask 11 = n := by
    rw [Integer.mask_eq, Nat.and_pow_two_sub_one_eq_mod]; omega
  have hw : Instruction.new op n = 2 ^ 11 * op + n := by
    rw [Instruction.new, hmask, Nat.shiftLeft_eq, Nat.mod_eq_of_lt (by omega),
      Nat.mul_comm op (2 ^ 11), ← Nat.mul_add_lt_is_or (by omega : n < 2 ^ 11) op]
  rw [hw]
  constructor
  · rw [Instruction.op, Nat.shiftRight_eq_div_pow]; omega
  · rw [Instruction.n, Integer.mask_eq, Nat.and_pow_two_sub_one_eq_mod]; omega

/-- C6 witness: opcode 21, operand 1234. -/
theorem C6_witness :
    ((21:Nat) < 32 ∧ (1234:Nat) < 2048) ∧
    Instruction.op (Instruction.new 21 1234) = 21 ∧
    Instruction.n (Instruction.new 21 1234) = 1234 :=
  ⟨⟨by decide, by decide⟩, C6_encode_decode 21 1234 (by decide) (by decide)⟩

/-- C7: for every representable word, `a - a` succeeds with a
zero-magnitude result. -/
theorem C7_sub_self (a : Nat) (ha : a < 2 ^ 16) :
    ∃ w, Integer.sub a a = .ok w ∧ Integer.abs w = 0 := by
  refine ⟨0, ?_, by decide⟩
  rw [Integer.sub]
  cases h : Integer.is_positive a
  · rw [Integer.add_diff2 a _ h (by rw [Integer.is_positive_xor_flip, h]; rfl)]
    rw [Integer.abs_xor_flip]
    simp
  · rw [Integer.add_diff a _ h (by rw [Integer.is_positive_xor_flip, h]; rfl)]
    rw [Integer.abs_xor_flip]
    simp

/-- C7 witness: the negative-zero word `0x8000` subtracted from itself. -/
theorem C7_witness :
    ((32768:Nat) < 2 ^ 16) ∧ ∃ w, Integer.sub 32768 32768 = .ok w ∧ Integer.abs w = 0 :=
  ⟨by decide, C7_sub_self 32768 (by decide)⟩

/-- C8: resolving a word whose opcode field matches no registry entry
fails with `UnknownOpcode`; resolving a word whose opcode field matches
an entry returns exactly that entry. -/
theorem C8_get_type (w : Nat) :
    ((∀ tt : InstrType, InstrType.opcode tt ≠ Instruction.op w) →
      Instruction.get_type w = .error .unknownOpcode) ∧
    (∀ tt : InstrType, InstrType.opcode tt = Instruction.op w →
      Instruction.get_type w = .ok tt) := by
  constructor
  · intro h
    have h1 := h .ADD
    have h2 := h .SUB
    have h3 := h .STORE
    have h4 := h .CLEAR
    have h5 := h .OR
    have h6 := h .AND
    have h7 := h .SHIFTR
    have h8 := h .SHIFTL
    have h9 := h .BGE
    have h10 := h .BLT
    have h11 := h .END
    simp only [InstrType.opcode] at h1 h2 h3 h4 h5 h6 h7 h8 h9 h10 h11
    have b1 : (1 == Instruction.op w) = false := by simp; exact h1
    have b2 : (16 == Instruction.op w) = false := by simp; exact h2
    have b3 : (2 == Instruction.op w) = false := by simp; exact h3
    have b4 : (3 == Instruction.op w) = false := by simp; exact h4
    have b5 : (0 == Instruction.op w) = false := by simp; exact h5
    have b6 : (4 == Instruction.op w) = false := by simp; exact h6
    have b7 : (5 == Instruction.op w) = false := by simp; exact h7
    have b8 : (6 == Instruction.op w) = false := by simp; exact h8
    have b9 : (7 == Instruction.op w) = false := by simp; exact h9
    have b10 : (8 == Instruction.op w) = false := by simp; exact h10
    have b11 : (10 == Instruction.op w) = false := by simp; exact h11
    simp [Instruction.get_type, INSTRUCTION_TYPES, List.find?, InstrType.opcode,
      b1, b2, b3, b4, b5, b6, b7, b8, b9, b10, b11]
  · intro tt h
    cases tt <;>
      simp only [InstrType.opcode] at h <;>
      simp [Instruction.get_type, INSTRUCTION_TYPES, List.find?, InstrType.opcode, ← h]

/-- C8 witness: opcode 0b01001 is rejected, opcode 0b00001 resolves to
ADD. -/
theorem C8_witness :
    Instruction.get_type (Instruction.new 9 0) = .error .unknownOpcode ∧
    Instruction.get_type (Instruction.new 1 5) = .ok .ADD := by
  constructor
  · exact (C8_get_type (Instruction.new 9 0)).1 (by intro tt; cases tt <;> decide)
  · exact (C8_get_type (Instruction.new 1 5)).2 .ADD (by decide)

/-- C9: the demonstration image halts with accumulator -10, pc 4 and
the encoding of -10 stored in cell 5. -/
theorem C9_end_to_end :
    run 6 0 demo_mem =
      some (.ok (⟨Integer.new (-10), 4⟩, demo_mem.set 5 (Integer.new (-10)))) ∧
    Integer.value (Integer.new (-10)) = -10 ∧
    (demo_mem.set 5 (Integer.new (-10)))[5]? = some (Integer.new (-10)) := by decide

/-- C10: subtracting operands with different sign bits whose magnitudes
sum beyond 32767 fails with `ArithmeticOverflow`, because subtraction
flips the subtrahend's sign bit and then adds two same-signed words. -/
theorem C10_sub_overflow (a b : Nat) (ha : a < 2 ^ 16) (hb : b < 2 ^ 16)
    (hsign : Integer.is_positive a ≠ Integer.is_positive b)
    (hmag : 32767 < Integer.abs a + Integer.abs b) :
    Integer.sub a b = .error .arithmeticOverflow := by
  rw [Integer.sub]
  have hflip : Integer.is_positive a = Integer.is_positive (b ^^^ 1 <<< 15) := by
    rw [Integer.is_positive_xor_flip]
    cases hA : Integer.is_positive a <;> cases hB : Integer.is_positive b <;>
      simp [hA, hB] at hsign ⊢
  rw [Integer.add_same a _ hflip, Integer.abs_xor_flip, if_neg (by omega)]

/-- C10 witness: `32767 - (-1)` overflows. -/
theorem C10_witness :
    ((32767:Nat) < 2 ^ 16 ∧ (32769:Nat) < 2 ^ 16 ∧
      Integer.is_positive 32767 ≠ Integer.is_positive 32769 ∧
      32767 < Integer.abs 32767 + Integer.abs 32769) ∧
    Integer.sub 32767 32769 = .error .arithmeticOverflow := by
  refine ⟨⟨by decide, by decide, by decide, by decide⟩, ?_⟩
  exact C10_sub_overflow 32767 32769 (by decide) (by decide) (by decide) (by decide)
